import Mathlib

/-!
Shallow embedding of the 3ODS spatial octree (`src/octree.hpp`, with the
octant distance metrics of `src/oct8.hpp`) and proofs of the specification
claims about it.

Coordinates (C++ `float`) are modelled as exact rationals `ℚ`; the single
square root appearing in the octant metric is modelled over `ℝ`.
Machine `size_t` arithmetic in the capacity utilities is modelled as
`Nat` with explicit reduction modulo `2^64`.
-/

namespace ODS

/-- 3D Euclidean position (`Vec3` in octree.hpp, `float` fields modelled
as `ℚ`). -/
structure Vec3 where
  x : ℚ
  y : ℚ
  z : ℚ
deriving DecidableEq, Repr

namespace Vec3

/-- Componentwise addition (`Vec3::operator+`). -/
def add (a b : Vec3) : Vec3 := ⟨a.x + b.x, a.y + b.y, a.z + b.z⟩

/-- Componentwise subtraction (`Vec3::operator-`). -/
def sub (a b : Vec3) : Vec3 := ⟨a.x - b.x, a.y - b.y, a.z - b.z⟩

/-- Scalar multiplication (`Vec3::operator*`). -/
def smul (a : Vec3) (s : ℚ) : Vec3 := ⟨a.x * s, a.y * s, a.z * s⟩

/-- Dot product (`Vec3::dot`). -/
def dot (a b : Vec3) : ℚ := a.x * b.x + a.y * b.y + a.z * b.z

/-- Squared distance, as computed by `query_radius`:
`(node_center - center).dot(node_center - center)`. -/
def distSq (a b : Vec3) : ℚ := (sub a b).dot (sub a b)

theorem distSq_nonneg (a b : Vec3) : 0 ≤ distSq a b := by
  unfold distSq dot sub
  exact add_nonneg (add_nonneg (mul_self_nonneg _) (mul_self_nonneg _))
    (mul_self_nonneg _)

end Vec3

/-- Axis-aligned bounding box (`BoundingBox` in octree.hpp). -/
structure BoundingBox where
  min : Vec3
  max : Vec3
deriving DecidableEq, Repr

namespace BoundingBox

/-- Box center: `(min + max) * 0.5f`. -/
def center (b : BoundingBox) : Vec3 := (b.min.add b.max).smul (1/2)

/-- Point containment test (`BoundingBox::contains`), inclusive on all
boundaries. -/
def contains (b : BoundingBox) (p : Vec3) : Prop :=
  p.x ≥ b.min.x ∧ p.x ≤ b.max.x ∧
  p.y ≥ b.min.y ∧ p.y ≤ b.max.y ∧
  p.z ≥ b.min.z ∧ p.z ≤ b.max.z

instance (b : BoundingBox) (p : Vec3) : Decidable (b.contains p) := by
  unfold contains; infer_instance

/-- Box-box intersection test (`BoundingBox::intersects`). -/
def intersects (b other : BoundingBox) : Prop :=
  ¬(b.max.x < other.min.x ∨ b.min.x > other.max.x ∨
    b.max.y < other.min.y ∨ b.min.y > other.max.y ∨
    b.max.z < other.min.z ∨ b.min.z > other.max.z)

instance (b o : BoundingBox) : Decidable (b.intersects o) := by
  unfold intersects; infer_instance

/-- Well-formedness of a box (`min <= max` on every axis); the C++ never
validates this, it is a caller precondition (spec §7). -/
def wf (b : BoundingBox) : Prop :=
  b.min.x ≤ b.max.x ∧ b.min.y ≤ b.max.y ∧ b.min.z ≤ b.max.z

instance (b : BoundingBox) : Decidable b.wf := by
  unfold wf; infer_instance

/-- Bounds containment between boxes (componentwise `outer.min ≤ inner.min`
and `inner.max ≤ outer.max`); the sense in which subdivision children sit
inside their parent. -/
def within (inner outer : BoundingBox) : Prop :=
  outer.min.x ≤ inner.min.x ∧ outer.min.y ≤ inner.min.y ∧ outer.min.z ≤ inner.min.z ∧
  inner.max.x ≤ outer.max.x ∧ inner.max.y ≤ outer.max.y ∧ inner.max.z ≤ outer.max.z

theorem within_refl (b : BoundingBox) : within b b :=
  ⟨le_refl _, le_refl _, le_refl _, le_refl _, le_refl _, le_refl _⟩

theorem within_trans {a b c : BoundingBox} (h1 : within a b) (h2 : within b c) :
    within a c := by
  obtain ⟨u1, u2, u3, u4, u5, u6⟩ := h1
  obtain ⟨v1, v2, v3, v4, v5, v6⟩ := h2
  exact ⟨le_trans v1 u1, le_trans v2 u2, le_trans v3 u3,
         le_trans u4 v4, le_trans u5 v5, le_trans u6 v6⟩

theorem intersects_of_within {a b q : BoundingBox} (hw : within a b)
    (h : intersects a q) : intersects b q := by
  obtain ⟨u1, u2, u3, u4, u5, u6⟩ := hw
  unfold intersects at h ⊢
  push_neg at h ⊢
  obtain ⟨h1, h2, h3, h4, h5, h6⟩ := h
  exact ⟨le_trans h1 u4, le_trans u1 h2, le_trans h3 u5,
         le_trans u2 h4, le_trans h5 u6, le_trans u3 h6⟩

end BoundingBox

/-- Octant index: the C++ `OctantIndex` wraps a `uint8_t` masked into
`[0,7]` with `& 7`; modelled as the masked natural number itself. -/
abbrev OctantIndex := Nat

/-- Constructor masking with `& 7` (`OctantIndex(uint8_t v) : value(v & 7)`). -/
def OctantIndex.ofNat (v : Nat) : OctantIndex := v &&& 7

theorem OctantIndex.ofNat_le (v : Nat) : OctantIndex.ofNat v ≤ 7 :=
  Nat.and_le_right

/-- Sign triple (±1 per axis) of an octant (`OctantIndex::Signs`). -/
structure Signs where
  sx : Int
  sy : Int
  sz : Int
deriving DecidableEq, Repr

/-- Bit decomposition into signs (`OctantIndex::to_signs`):
bit 0 → x, bit 1 → y, bit 2 → z. -/
def OctantIndex.to_signs (i : OctantIndex) : Signs :=
  ⟨if i &&& 1 ≠ 0 then 1 else -1,
   if i &&& 2 ≠ 0 then 1 else -1,
   if i &&& 4 ≠ 0 then 1 else -1⟩

/-- Bit packing from signs (`OctantIndex::from_signs`). -/
def OctantIndex.from_signs (sx sy sz : Int) : OctantIndex :=
  OctantIndex.ofNat
    ((if sx > 0 then 1 else 0) |||
     ((if sy > 0 then 2 else 0) ||| (if sz > 0 then 4 else 0)))

/-- Octant classification of a point relative to a center
(`OctantIndex::from_position`); ties resolve to the positive side. -/
def OctantIndex.from_position (pos center : Vec3) : OctantIndex :=
  OctantIndex.from_signs
    (if pos.x ≥ center.x then 1 else -1)
    (if pos.y ≥ center.y then 1 else -1)
    (if pos.z ≥ center.z then 1 else -1)

/-- Fuelled population count implementing the `while (xor_val)` loop of
`OctantIndex::hamming_distance`; the fuel only encodes the loop's
termination and never runs out (`m ≤ fuel` throughout). -/
def popBitsGo : Nat → Nat → Nat
  | 0, _ => 0
  | _ + 1, 0 => 0
  | fuel + 1, m + 1 => ((m + 1) &&& 1) + popBitsGo fuel ((m + 1) >>> 1)

/-- Population count of a natural number, as the bit loop of
`OctantIndex::hamming_distance` computes it. -/
def popBits (n : Nat) : Nat := popBitsGo n n

/-- Hamming distance between octants (`OctantIndex::hamming_distance`):
popcount of the XOR. -/
def OctantIndex.hamming_distance (a b : OctantIndex) : Nat :=
  popBits (a ^^^ b)

/-- Euclidean distance between octants
(`OctantIndex::euclidean_distance` in octree.hpp): `sqrt` of the Hamming
distance, over the real-number model of `float`. -/
noncomputable def OctantIndex.euclidean_distance (a b : OctantIndex) : ℝ :=
  Real.sqrt (OctantIndex.hamming_distance a b)

/-- Hamming distance as computed by oct8.hpp's closed-form popcount
(`o::hamming_distance`). -/
def oct8_hamming_distance (a b : OctantIndex) : Nat :=
  ((a ^^^ b) &&& 1) + (((a ^^^ b) >>> 1) &&& 1) + (((a ^^^ b) >>> 2) &&& 1)

/-- Euclidean distance between octant vertices (`o::euclidean_distance` in
oct8.hpp): `sqrt(hamming)`, doubled when `unit_cube` selects the ±1 cube. -/
noncomputable def oct8_euclidean_distance (a b : OctantIndex)
    (unit_cube : Bool) : ℝ :=
  if unit_cube then 2 * Real.sqrt (oct8_hamming_distance a b)
  else Real.sqrt (oct8_hamming_distance a b)

example : OctantIndex.hamming_distance 0 7 = 3 := by decide
example : oct8_hamming_distance 0 7 = 3 := by decide
example : OctantIndex.from_position ⟨1, 1, 1⟩ ⟨0, 0, 0⟩ = 7 := by decide
example : OctantIndex.from_position ⟨-1, 1, -1⟩ ⟨0, 0, 0⟩ = 2 := by decide

/-- Ground evaluations of `to_signs` on the eight octants, for rewriting
during concrete computations. -/
@[simp] theorem to_signs_0 : OctantIndex.to_signs 0 = ⟨-1, -1, -1⟩ := by decide

@[simp] theorem to_signs_1 : OctantIndex.to_signs 1 = ⟨1, -1, -1⟩ := by decide

@[simp] theorem to_signs_2 : OctantIndex.to_signs 2 = ⟨-1, 1, -1⟩ := by decide

@[simp] theorem to_signs_3 : OctantIndex.to_signs 3 = ⟨1, 1, -1⟩ := by decide

@[simp] theorem to_signs_4 : OctantIndex.to_signs 4 = ⟨-1, -1, 1⟩ := by decide

@[simp] theorem to_signs_5 : OctantIndex.to_signs 5 = ⟨1, -1, 1⟩ := by decide

@[simp] theorem to_signs_6 : OctantIndex.to_signs 6 = ⟨-1, 1, 1⟩ := by decide

@[simp] theorem to_signs_7 : OctantIndex.to_signs 7 = ⟨1, 1, 1⟩ := by decide

/-- Ground evaluations of `from_signs` on the eight sign combinations. -/
@[simp] theorem from_signs_mmm : OctantIndex.from_signs (-1) (-1) (-1) = 0 := by decide

@[simp] theorem from_signs_pmm : OctantIndex.from_signs 1 (-1) (-1) = 1 := by decide

@[simp] theorem from_signs_mpm : OctantIndex.from_signs (-1) 1 (-1) = 2 := by decide

@[simp] theorem from_signs_ppm : OctantIndex.from_signs 1 1 (-1) = 3 := by decide

@[simp] theorem from_signs_mmp : OctantIndex.from_signs (-1) (-1) 1 = 4 := by decide

@[simp] theorem from_signs_pmp : OctantIndex.from_signs 1 (-1) 1 = 5 := by decide

@[simp] theorem from_signs_mpp : OctantIndex.from_signs (-1) 1 1 = 6 := by decide

@[simp] theorem from_signs_ppp : OctantIndex.from_signs 1 1 1 = 7 := by decide

/-- Bounding box of the child octant created by `OctreeNode::subdivide` for
octant `i`: per axis `[center, max]` when the octant's sign is positive,
`[min, center]` otherwise. -/
def childBox (b : BoundingBox) (i : OctantIndex) : BoundingBox :=
  let c := b.center
  let s := OctantIndex.to_signs i
  ⟨⟨if s.sx > 0 then c.x else b.min.x,
    if s.sy > 0 then c.y else b.min.y,
    if s.sz > 0 then c.z else b.min.z⟩,
   ⟨if s.sx > 0 then b.max.x else c.x,
    if s.sy > 0 then b.max.y else c.y,
    if s.sz > 0 then b.max.z else c.z⟩⟩

/-- Octree node (`OctreeNode<T>`): a leaf, or an internal node whose eight
children were created atomically by `subdivide()` (the C++ `is_leaf_` flag
is the constructor; `children_[i]` is non-null exactly on internal nodes).
Both constructors carry the optional payload, since `subdivide()` does not
clear `data_`. -/
inductive OctreeNode (T : Type) where
  | leaf (bbox : BoundingBox) (level : Nat) (data : Option T)
  | branch (bbox : BoundingBox) (level : Nat) (data : Option T)
      (c0 c1 c2 c3 c4 c5 c6 c7 : OctreeNode T)
deriving DecidableEq

namespace OctreeNode

variable {T : Type}

/-- Accessor `OctreeNode::bbox()`. -/
def bbox : OctreeNode T → BoundingBox
  | .leaf b _ _ => b
  | .branch b _ _ _ _ _ _ _ _ _ _ => b

/-- Accessor `OctreeNode::level()`. -/
def level : OctreeNode T → Nat
  | .leaf _ l _ => l
  | .branch _ l _ _ _ _ _ _ _ _ _ => l

/-- The optional payload (`data_`, with `has_data()`/`data()`). -/
def data : OctreeNode T → Option T
  | .leaf _ _ d => d
  | .branch _ _ d _ _ _ _ _ _ _ _ => d

/-- Accessor `OctreeNode::is_leaf()`. -/
def is_leaf : OctreeNode T → Bool
  | .leaf _ _ _ => true
  | .branch _ _ _ _ _ _ _ _ _ _ _ => false

/-- `OctreeNode::find_child_containing`: pure descent; at an internal node
classify the point against the node's bounding-box center and recurse into
that octant's child; a leaf returns itself. -/
def findCC : OctreeNode T → Vec3 → OctreeNode T
  | .leaf b l d, _ => .leaf b l d
  | .branch b _ _ c0 c1 c2 c3 c4 c5 c6 c7, p =>
    let idx := OctantIndex.from_position p b.center
    if idx = 0 then findCC c0 p
    else if idx = 1 then findCC c1 p
    else if idx = 2 then findCC c2 p
    else if idx = 3 then findCC c3 p
    else if idx = 4 then findCC c4 p
    else if idx = 5 then findCC c5 p
    else if idx = 6 then findCC c6 p
    else findCC c7 p

/-- All nodes of a subtree in `visit_all` order (the node itself, then the
subtrees of children 0..7). -/
def allNodes : OctreeNode T → List (OctreeNode T)
  | .leaf b l d => [.leaf b l d]
  | .branch b l d c0 c1 c2 c3 c4 c5 c6 c7 =>
    .branch b l d c0 c1 c2 c3 c4 c5 c6 c7 ::
      (allNodes c0 ++ allNodes c1 ++ allNodes c2 ++ allNodes c3 ++
       allNodes c4 ++ allNodes c5 ++ allNodes c6 ++ allNodes c7)

/-- `Octree::query_bbox_recursive`: prune a subtree whose box does not
intersect the query; a leaf with data inside an intersecting box emits its
payload; an internal node recurses into all children (its own payload, if
any, is never emitted). -/
def queryBBoxNode (q : BoundingBox) : OctreeNode T → List T
  | .leaf b _ d => if b.intersects q then d.toList else []
  | .branch b _ _ c0 c1 c2 c3 c4 c5 c6 c7 =>
    if b.intersects q then
      queryBBoxNode q c0 ++ queryBBoxNode q c1 ++ queryBBoxNode q c2 ++
      queryBBoxNode q c3 ++ queryBBoxNode q c4 ++ queryBBoxNode q c5 ++
      queryBBoxNode q c6 ++ queryBBoxNode q c7
    else []

/-- The body of the `query_radius` visitor at one node: emit the payload
when present and the bbox centroid is within the squared radius. -/
def radHit (cen : Vec3) (rsq : ℚ) (b : BoundingBox) (d : Option T) : List T :=
  match d with
  | some v => if Vec3.distSq b.center cen ≤ rsq then [v] else []
  | none => []

/-- `Octree::query_radius`'s traversal: `visit_all` applying `radHit` at
every node (no pruning). -/
def radiusCollect (cen : Vec3) (rsq : ℚ) : OctreeNode T → List T
  | .leaf b _ d => radHit cen rsq b d
  | .branch b _ d c0 c1 c2 c3 c4 c5 c6 c7 =>
    radHit cen rsq b d ++
      (radiusCollect cen rsq c0 ++ radiusCollect cen rsq c1 ++
       radiusCollect cen rsq c2 ++ radiusCollect cen rsq c3 ++
       radiusCollect cen rsq c4 ++ radiusCollect cen rsq c5 ++
       radiusCollect cen rsq c6 ++ radiusCollect cen rsq c7)

/-- The `find_or_create_leaf` loop from the moment it subdivides a leaf:
each remaining step subdivides (8 fresh empty children with the subdivision
boxes at `level+1`), descends into the point's octant, and on loop exit
(`fuel = 0`, i.e. level = max_depth) stores the payload via `set_data`. -/
def drill (p : Vec3) (v : T) : Nat → BoundingBox → Nat → Option T → OctreeNode T
  | 0, b, l, _ => .leaf b l (some v)
  | fuel + 1, b, l, d =>
    let idx := OctantIndex.from_position p b.center
    .branch b l d
      (if idx = 0 then drill p v fuel (childBox b 0) (l + 1) none
       else .leaf (childBox b 0) (l + 1) none)
      (if idx = 1 then drill p v fuel (childBox b 1) (l + 1) none
       else .leaf (childBox b 1) (l + 1) none)
      (if idx = 2 then drill p v fuel (childBox b 2) (l + 1) none
       else .leaf (childBox b 2) (l + 1) none)
      (if idx = 3 then drill p v fuel (childBox b 3) (l + 1) none
       else .leaf (childBox b 3) (l + 1) none)
      (if idx = 4 then drill p v fuel (childBox b 4) (l + 1) none
       else .leaf (childBox b 4) (l + 1) none)
      (if idx = 5 then drill p v fuel (childBox b 5) (l + 1) none
       else .leaf (childBox b 5) (l + 1) none)
      (if idx = 6 then drill p v fuel (childBox b 6) (l + 1) none
       else .leaf (childBox b 6) (l + 1) none)
      (if idx = 7 then drill p v fuel (childBox b 7) (l + 1) none
       else .leaf (childBox b 7) (l + 1) none)

/-- `Octree::find_or_create_leaf` followed by `set_data`: while the current
node's level is below `max_depth`, subdivide it if it is a leaf and descend
into the point's octant; at loop exit store the payload. At a leaf below
the bound the whole remaining descent is `drill`. -/
def insertNode (md : Nat) (p : Vec3) (v : T) : OctreeNode T → OctreeNode T
  | .leaf b l d =>
    if l < md then drill p v (md - l) b l d
    else .leaf b l (some v)
  | .branch b l d c0 c1 c2 c3 c4 c5 c6 c7 =>
    if l < md then
      let idx := OctantIndex.from_position p b.center
      .branch b l d
        (if idx = 0 then insertNode md p v c0 else c0)
        (if idx = 1 then insertNode md p v c1 else c1)
        (if idx = 2 then insertNode md p v c2 else c2)
        (if idx = 3 then insertNode md p v c3 else c3)
        (if idx = 4 then insertNode md p v c4 else c4)
        (if idx = 5 then insertNode md p v c5 else c5)
        (if idx = 6 then insertNode md p v c6 else c6)
        (if idx = 7 then insertNode md p v c7 else c7)
    else .branch b l (some v) c0 c1 c2 c3 c4 c5 c6 c7

/-- Fully expanded empty subtree produced by `subdivide_recursive` on a
fresh child (`fuel` = levels remaining to the target depth). -/
def expand : Nat → BoundingBox → Nat → OctreeNode T
  | 0, b, l => .leaf b l none
  | fuel + 1, b, l =>
    .branch b l none
      (expand fuel (childBox b 0) (l + 1)) (expand fuel (childBox b 1) (l + 1))
      (expand fuel (childBox b 2) (l + 1)) (expand fuel (childBox b 3) (l + 1))
      (expand fuel (childBox b 4) (l + 1)) (expand fuel (childBox b 5) (l + 1))
      (expand fuel (childBox b 6) (l + 1)) (expand fuel (childBox b 7) (l + 1))

/-- `Octree::subdivide_recursive`: stop at or beyond the target depth;
subdivide a leaf (keeping its payload) and expand the fresh children; at an
internal node recurse into all children. -/
def subdivideRec (target : Nat) : OctreeNode T → OctreeNode T
  | .leaf b l d =>
    if l ≥ target then .leaf b l d
    else
      .branch b l d
        (expand (target - (l + 1)) (childBox b 0) (l + 1))
        (expand (target - (l + 1)) (childBox b 1) (l + 1))
        (expand (target - (l + 1)) (childBox b 2) (l + 1))
        (expand (target - (l + 1)) (childBox b 3) (l + 1))
        (expand (target - (l + 1)) (childBox b 4) (l + 1))
        (expand (target - (l + 1)) (childBox b 5) (l + 1))
        (expand (target - (l + 1)) (childBox b 6) (l + 1))
        (expand (target - (l + 1)) (childBox b 7) (l + 1))
  | .branch b l d c0 c1 c2 c3 c4 c5 c6 c7 =>
    if l ≥ target then .branch b l d c0 c1 c2 c3 c4 c5 c6 c7
    else
      .branch b l d
        (subdivideRec target c0) (subdivideRec target c1)
        (subdivideRec target c2) (subdivideRec target c3)
        (subdivideRec target c4) (subdivideRec target c5)
        (subdivideRec target c6) (subdivideRec target c7)

end OctreeNode

/-- Aggregate statistics (`OctreeNode::Stats`). -/
structure Stats where
  total_nodes : Nat
  leaf_nodes : Nat
  internal_nodes : Nat
  nodes_with_data : Nat
  max_depth : Nat
deriving DecidableEq, Repr

/-- Merge of two statistics accumulations. -/
def Stats.merge (s t : Stats) : Stats :=
  ⟨s.total_nodes + t.total_nodes, s.leaf_nodes + t.leaf_nodes,
   s.internal_nodes + t.internal_nodes, s.nodes_with_data + t.nodes_with_data,
   Nat.max s.max_depth t.max_depth⟩

/-- `OctreeNode::compute_stats`: count every node, classify leaf/internal,
count payload-bearing nodes, track the maximum level reached. -/
def OctreeNode.computeStats {T : Type} : OctreeNode T → Stats
  | .leaf _ l d => ⟨1, 1, 0, if d.isSome then 1 else 0, l⟩
  | .branch _ l d c0 c1 c2 c3 c4 c5 c6 c7 =>
    let s := Stats.merge (computeStats c0) (Stats.merge (computeStats c1)
      (Stats.merge (computeStats c2) (Stats.merge (computeStats c3)
      (Stats.merge (computeStats c4) (Stats.merge (computeStats c5)
      (Stats.merge (computeStats c6) (computeStats c7)))))))
    ⟨1 + s.total_nodes, s.leaf_nodes, 1 + s.internal_nodes,
     (if d.isSome then 1 else 0) + s.nodes_with_data, Nat.max l s.max_depth⟩

/-- The octree container (`Octree<T>`): root node plus the depth bound. -/
structure Octree (T : Type) where
  root : OctreeNode T
  max_depth : Nat
deriving DecidableEq

namespace Octree

variable {T : Type}

/-- `Octree(bbox, max_depth)`: a fresh root leaf at level 0 with no data. -/
def new (b : BoundingBox) (md : Nat) : Octree T := ⟨.leaf b 0 none, md⟩

/-- `Octree::insert`: out-of-bounds points are dropped; otherwise descend
with lazy subdivision and store the payload at the reached node. -/
def insert (t : Octree T) (p : Vec3) (v : T) : Octree T :=
  if t.root.bbox.contains p then
    ⟨OctreeNode.insertNode t.max_depth p v t.root, t.max_depth⟩
  else t

/-- `Octree::find`: descend via `find_child_containing` and return the
reached node's payload if present. -/
def find (t : Octree T) (p : Vec3) : Option T := (t.root.findCC p).data

/-- `Octree::query_bbox`. -/
def query_bbox (t : Octree T) (q : BoundingBox) : List T :=
  OctreeNode.queryBBoxNode q t.root

/-- `Octree::query_radius` (compares squared distances to `radius²`). -/
def query_radius (t : Octree T) (c : Vec3) (r : ℚ) : List T :=
  OctreeNode.radiusCollect c (r * r) t.root

/-- `Octree::subdivide_to_depth`: clamp to `max_depth`, then eagerly
subdivide. -/
def subdivide_to_depth (t : Octree T) (depth : Nat) : Octree T :=
  ⟨OctreeNode.subdivideRec (Nat.min depth t.max_depth) t.root, t.max_depth⟩

/-- `Octree::clear`: replace the root with a fresh empty leaf of the same
bounding box. -/
def clear (t : Octree T) : Octree T := ⟨.leaf t.root.bbox 0 none, t.max_depth⟩

/-- `Octree::stats`. -/
def stats (t : Octree T) : Stats := t.root.computeStats

end Octree

/-- One mutating operation of the container's public interface (queries are
`const` and do not change state). -/
inductive Op (T : Type) where
  | insertOp (p : Vec3) (v : T)
  | subdivideOp (depth : Nat)
  | clearOp

/-- Apply one interface operation. -/
def applyOp {T : Type} (t : Octree T) : Op T → Octree T
  | .insertOp p v => t.insert p v
  | .subdivideOp d => t.subdivide_to_depth d
  | .clearOp => t.clear

/-- Every tree built through the container interface: construct with a
bounding box and depth bound, then run any sequence of operations. -/
def build {T : Type} (b : BoundingBox) (md : Nat) (ops : List (Op T)) : Octree T :=
  ops.foldl applyOp (Octree.new b md)

/-- `TemporalOctree<T>`: twelve independent per-phase octrees. -/
structure TemporalOctree (T : Type) where
  octrees : Fin 12 → Octree T

namespace TemporalOctree

variable {T : Type}

/-- `TemporalOctree(bbox, max_depth)`: all twelve phases share the initial
box and depth bound. -/
def new (b : BoundingBox) (md : Nat) : TemporalOctree T :=
  ⟨fun _ => Octree.new b md⟩

/-- `TemporalOctree::insert`: phases `≥ 12` are ignored. -/
def insert (t : TemporalOctree T) (phase : Nat) (p : Vec3) (v : T) :
    TemporalOctree T :=
  if h : phase < 12 then
    ⟨fun i => if i = ⟨phase, h⟩ then (t.octrees ⟨phase, h⟩).insert p v
              else t.octrees i⟩
  else t

/-- `TemporalOctree::find`: phases `≥ 12` return `nullopt`. -/
def find (t : TemporalOctree T) (phase : Nat) (p : Vec3) : Option T :=
  if h : phase < 12 then (t.octrees ⟨phase, h⟩).find p else none

/-- `TemporalOctree::query_bbox`: phases `≥ 12` return an empty result. -/
def query_bbox (t : TemporalOctree T) (phase : Nat) (q : BoundingBox) : List T :=
  if h : phase < 12 then (t.octrees ⟨phase, h⟩).query_bbox q else []

end TemporalOctree

/-- The `power *= NUM_OCTANTS` loop of the capacity utilities, in 64-bit
`size_t` arithmetic (reduce modulo `2^64` after each multiplication). -/
def mulPow8 : Nat → Nat
  | 0 => 1
  | n + 1 => mulPow8 n * 8 % 2 ^ 64

/-- `theoretical_node_count(depth)`: the loop runs `depth+1` times, then
`(power - 1) / 7` in `size_t` (wrapping subtraction, truncating division). -/
def theoretical_node_count (depth : Nat) : Nat :=
  (mulPow8 (depth + 1) + (2 ^ 64 - 1)) % 2 ^ 64 / 7

/-- `leaf_count_at_depth(depth)`: the loop runs `depth` times. -/
def leaf_count_at_depth (depth : Nat) : Nat := mulPow8 depth

example : theoretical_node_count 2 = 73 := by decide
example : leaf_count_at_depth 2 = 64 := by decide

/-!
Invariant layer: the shape every tree reachable through the container
interface has — levels below the bound, children produced by `subdivide`
(level `+1`, subdivision boxes), payloads only at `max_depth` leaves.
-/

/-- An octant index is one of `0..7`. -/
theorem oct_cases (i : Nat) (h : i ≤ 7) :
    i = 0 ∨ i = 1 ∨ i = 2 ∨ i = 3 ∨ i = 4 ∨ i = 5 ∨ i = 6 ∨ i = 7 := by omega

theorem from_position_le (p c : Vec3) : OctantIndex.from_position p c ≤ 7 :=
  OctantIndex.ofNat_le _

namespace OctreeNode

variable {T : Type}

/-- Structural invariant of container-reachable subtrees: every level is
within the depth bound, payloads sit only at `max_depth` (so only on
leaves), internal nodes carry no payload and their children are exactly
the eight subdivision children one level deeper. -/
def good (md : Nat) : OctreeNode T → Prop
  | .leaf _ l d => l ≤ md ∧ (d.isSome → l = md)
  | .branch b l d c0 c1 c2 c3 c4 c5 c6 c7 =>
    l < md ∧ d = none ∧
    (c0.level = l + 1 ∧ c0.bbox = childBox b 0 ∧ good md c0) ∧
    (c1.level = l + 1 ∧ c1.bbox = childBox b 1 ∧ good md c1) ∧
    (c2.level = l + 1 ∧ c2.bbox = childBox b 2 ∧ good md c2) ∧
    (c3.level = l + 1 ∧ c3.bbox = childBox b 3 ∧ good md c3) ∧
    (c4.level = l + 1 ∧ c4.bbox = childBox b 4 ∧ good md c4) ∧
    (c5.level = l + 1 ∧ c5.bbox = childBox b 5 ∧ good md c5) ∧
    (c6.level = l + 1 ∧ c6.bbox = childBox b 6 ∧ good md c6) ∧
    (c7.level = l + 1 ∧ c7.bbox = childBox b 7 ∧ good md c7)

theorem drill_bbox (p : Vec3) (v : T) (fuel : Nat) (b : BoundingBox) (l : Nat)
    (d : Option T) : (drill p v fuel b l d).bbox = b := by
  cases fuel <;> rfl

theorem drill_level (p : Vec3) (v : T) (fuel : Nat) (b : BoundingBox) (l : Nat)
    (d : Option T) : (drill p v fuel b l d).level = l := by
  cases fuel <;> rfl

theorem insertNode_bbox (md : Nat) (p : Vec3) (v : T) (n : OctreeNode T) :
    (insertNode md p v n).bbox = n.bbox := by
  cases n with
  | leaf b l d =>
    simp only [insertNode]
    split
    · exact drill_bbox ..
    · rfl
  | branch b l d c0 c1 c2 c3 c4 c5 c6 c7 =>
    simp only [insertNode]
    split <;> rfl

theorem insertNode_level (md : Nat) (p : Vec3) (v : T) (n : OctreeNode T) :
    (insertNode md p v n).level = n.level := by
  cases n with
  | leaf b l d =>
    simp only [insertNode]
    split
    · exact drill_level ..
    · rfl
  | branch b l d c0 c1 c2 c3 c4 c5 c6 c7 =>
    simp only [insertNode]
    split <;> rfl

theorem expand_bbox (fuel : Nat) (b : BoundingBox) (l : Nat) :
    (expand (T := T) fuel b l).bbox = b := by
  cases fuel <;> rfl

theorem expand_level (fuel : Nat) (b : BoundingBox) (l : Nat) :
    (expand (T := T) fuel b l).level = l := by
  cases fuel <;> rfl

theorem subdivideRec_bbox (target : Nat) (n : OctreeNode T) :
    (subdivideRec target n).bbox = n.bbox := by
  cases n <;> simp only [subdivideRec] <;> split <;> rfl

theorem subdivideRec_level (target : Nat) (n : OctreeNode T) :
    (subdivideRec target n).level = n.level := by
  cases n <;> simp only [subdivideRec] <;> split <;> rfl

theorem good_fresh_leaf {md l : Nat} (b : BoundingBox) (h : l ≤ md) :
    good md (OctreeNode.leaf (T := T) b l none) := by
  simp only [good]
  exact ⟨h, by simp⟩

theorem drill_good (md : Nat) (p : Vec3) (v : T) :
    ∀ fuel b l, l + fuel = md → good md (drill p v fuel b l none) := by
  intro fuel
  induction fuel with
  | zero =>
    intro b l hl
    simp only [drill, good]
    exact ⟨by omega, fun _ => by omega⟩
  | succ fuel ih =>
    intro b l hl
    simp only [drill, good]
    refine ⟨by omega, by trivial, ?_, ?_, ?_, ?_, ?_, ?_, ?_, ?_⟩ <;>
      · split
        · exact ⟨drill_level .., drill_bbox .., ih _ _ (by omega)⟩
        · exact ⟨rfl, rfl, good_fresh_leaf _ (by omega)⟩

theorem expand_good (md : Nat) :
    ∀ fuel b l, l + fuel ≤ md → good md (expand (T := T) fuel b l) := by
  intro fuel
  induction fuel with
  | zero =>
    intro b l hl
    exact good_fresh_leaf _ (by omega)
  | succ fuel ih =>
    intro b l hl
    simp only [expand, good]
    refine ⟨by omega, by trivial, ?_, ?_, ?_, ?_, ?_, ?_, ?_, ?_⟩ <;>
      exact ⟨expand_level .., expand_bbox .., ih _ _ (by omega)⟩

theorem insertNode_good (md : Nat) (p : Vec3) (v : T) (n : OctreeNode T)
    (h : good md n) : good md (insertNode md p v n) := by
  induction n with
  | leaf b l d =>
    obtain ⟨hl, hd⟩ := h
    simp only [insertNode]
    split
    · rename_i hlt
      have hdnone : d = none := by
        cases d with
        | none => rfl
        | some v0 => exact absurd (hd rfl) (by omega)
      rw [hdnone]
      exact drill_good md p v _ b l (by omega)
    · exact ⟨hl, fun _ => by omega⟩
  | branch b l d c0 c1 c2 c3 c4 c5 c6 c7 ih0 ih1 ih2 ih3 ih4 ih5 ih6 ih7 =>
    obtain ⟨hl, hd, ⟨e0, f0, g0⟩, ⟨e1, f1, g1⟩, ⟨e2, f2, g2⟩, ⟨e3, f3, g3⟩,
      ⟨e4, f4, g4⟩, ⟨e5, f5, g5⟩, ⟨e6, f6, g6⟩, ⟨e7, f7, g7⟩⟩ := h
    simp only [insertNode, hl, if_true]
    refine ⟨hl, hd, ?_, ?_, ?_, ?_, ?_, ?_, ?_, ?_⟩
    · split
      · exact ⟨by rw [insertNode_level]; exact e0, by rw [insertNode_bbox]; exact f0, ih0 g0⟩
      · exact ⟨e0, f0, g0⟩
    · split
      · exact ⟨by rw [insertNode_level]; exact e1, by rw [insertNode_bbox]; exact f1, ih1 g1⟩
      · exact ⟨e1, f1, g1⟩
    · split
      · exact ⟨by rw [insertNode_level]; exact e2, by rw [insertNode_bbox]; exact f2, ih2 g2⟩
      · exact ⟨e2, f2, g2⟩
    · split
      · exact ⟨by rw [insertNode_level]; exact e3, by rw [insertNode_bbox]; exact f3, ih3 g3⟩
      · exact ⟨e3, f3, g3⟩
    · split
      · exact ⟨by rw [insertNode_level]; exact e4, by rw [insertNode_bbox]; exact f4, ih4 g4⟩
      · exact ⟨e4, f4, g4⟩
    · split
      · exact ⟨by rw [insertNode_level]; exact e5, by rw [insertNode_bbox]; exact f5, ih5 g5⟩
      · exact ⟨e5, f5, g5⟩
    · split
      · exact ⟨by rw [insertNode_level]; exact e6, by rw [insertNode_bbox]; exact f6, ih6 g6⟩
      · exact ⟨e6, f6, g6⟩
    · split
      · exact ⟨by rw [insertNode_level]; exact e7, by rw [insertNode_bbox]; exact f7, ih7 g7⟩
      · exact ⟨e7, f7, g7⟩

theorem subdivideRec_good (md target : Nat) (htarget : target ≤ md)
    (n : OctreeNode T) (h : good md n) : good md (subdivideRec target n) := by
  induction n with
  | leaf b l d =>
    obtain ⟨hl, hd⟩ := h
    simp only [subdivideRec]
    split
    · exact ⟨hl, hd⟩
    · rename_i hlt
      have hdnone : d = none := by
        cases d with
        | none => rfl
        | some v0 => exact absurd (hd rfl) (by omega)
      rw [hdnone]
      refine ⟨by omega, rfl, ?_, ?_, ?_, ?_, ?_, ?_, ?_, ?_⟩ <;>
        exact ⟨expand_level .., expand_bbox .., expand_good md _ _ _ (by omega)⟩
  | branch b l d c0 c1 c2 c3 c4 c5 c6 c7 ih0 ih1 ih2 ih3 ih4 ih5 ih6 ih7 =>
    obtain ⟨hl, hd, ⟨e0, f0, g0⟩, ⟨e1, f1, g1⟩, ⟨e2, f2, g2⟩, ⟨e3, f3, g3⟩,
      ⟨e4, f4, g4⟩, ⟨e5, f5, g5⟩, ⟨e6, f6, g6⟩, ⟨e7, f7, g7⟩⟩ := h
    simp only [subdivideRec]
    split
    · exact ⟨hl, hd, ⟨e0, f0, g0⟩, ⟨e1, f1, g1⟩, ⟨e2, f2, g2⟩, ⟨e3, f3, g3⟩,
        ⟨e4, f4, g4⟩, ⟨e5, f5, g5⟩, ⟨e6, f6, g6⟩, ⟨e7, f7, g7⟩⟩
    · refine ⟨hl, hd, ?_, ?_, ?_, ?_, ?_, ?_, ?_, ?_⟩ <;>
        simp only [subdivideRec_level, subdivideRec_bbox]
      · exact ⟨e0, f0, ih0 g0⟩
      · exact ⟨e1, f1, ih1 g1⟩
      · exact ⟨e2, f2, ih2 g2⟩
      · exact ⟨e3, f3, ih3 g3⟩
      · exact ⟨e4, f4, ih4 g4⟩
      · exact ⟨e5, f5, ih5 g5⟩
      · exact ⟨e6, f6, ih6 g6⟩
      · exact ⟨e7, f7, ih7 g7⟩

end OctreeNode

/-- Container-level invariant: the depth bound, the root box and the root
level never change, and the root subtree is `good`. -/
def Octree.inv {T : Type} (t : Octree T) (b0 : BoundingBox) (md0 : Nat) : Prop :=
  t.max_depth = md0 ∧ t.root.bbox = b0 ∧ t.root.level = 0 ∧
    OctreeNode.good md0 t.root

theorem applyOp_inv {T : Type} (b0 : BoundingBox) (md0 : Nat) (t : Octree T)
    (op : Op T) (h : t.inv b0 md0) : (applyOp t op).inv b0 md0 := by
  obtain ⟨hmd, hb, hl, hg⟩ := h
  cases op with
  | insertOp p v =>
    simp only [applyOp, Octree.insert]
    split
    · refine ⟨hmd, ?_, ?_, ?_⟩
      · show (OctreeNode.insertNode t.max_depth p v t.root).bbox = b0
        rw [OctreeNode.insertNode_bbox]; exact hb
      · show (OctreeNode.insertNode t.max_depth p v t.root).level = 0
        rw [OctreeNode.insertNode_level]; exact hl
      · show OctreeNode.good md0 (OctreeNode.insertNode t.max_depth p v t.root)
        rw [hmd]
        exact OctreeNode.insertNode_good md0 p v _ hg
    · exact ⟨hmd, hb, hl, hg⟩
  | subdivideOp dep =>
    simp only [applyOp, Octree.subdivide_to_depth]
    refine ⟨hmd, ?_, ?_, ?_⟩
    · show (OctreeNode.subdivideRec (Nat.min dep t.max_depth) t.root).bbox = b0
      rw [OctreeNode.subdivideRec_bbox]; exact hb
    · show (OctreeNode.subdivideRec (Nat.min dep t.max_depth) t.root).level = 0
      rw [OctreeNode.subdivideRec_level]; exact hl
    · show OctreeNode.good md0 (OctreeNode.subdivideRec (Nat.min dep t.max_depth) t.root)
      rw [hmd]
      exact OctreeNode.subdivideRec_good md0 _ (Nat.min_le_right dep md0) _ hg
  | clearOp =>
    exact ⟨hmd, hb, rfl, OctreeNode.good_fresh_leaf _ (Nat.zero_le _)⟩

theorem build_inv {T : Type} (b : BoundingBox) (md : Nat) (ops : List (Op T)) :
    (build b md ops).inv b md := by
  have base : (Octree.new (T := T) b md).inv b md :=
    ⟨rfl, rfl, rfl, Nat.zero_le _, by simp⟩
  unfold build
  generalize Octree.new (T := T) b md = t0 at base
  induction ops generalizing t0 with
  | nil => exact base
  | cons op ops ih => exact ih _ (applyOp_inv b md t0 op base)

namespace OctreeNode

variable {T : Type}

/-- A property holding at every node of a subtree (recursive form of
quantifying over `allNodes`). -/
def nodeAll (P : OctreeNode T → Prop) : OctreeNode T → Prop
  | .leaf b l d => P (.leaf b l d)
  | .branch b l d c0 c1 c2 c3 c4 c5 c6 c7 =>
    P (.branch b l d c0 c1 c2 c3 c4 c5 c6 c7) ∧
    nodeAll P c0 ∧ nodeAll P c1 ∧ nodeAll P c2 ∧ nodeAll P c3 ∧
    nodeAll P c4 ∧ nodeAll P c5 ∧ nodeAll P c6 ∧ nodeAll P c7

theorem nodeAll_iff (P : OctreeNode T → Prop) (n : OctreeNode T) :
    nodeAll P n ↔ ∀ m ∈ allNodes n, P m := by
  induction n with
  | leaf b l d => simp [nodeAll, allNodes]
  | branch b l d c0 c1 c2 c3 c4 c5 c6 c7 ih0 ih1 ih2 ih3 ih4 ih5 ih6 ih7 =>
    simp only [nodeAll, allNodes, List.forall_mem_cons, List.mem_append,
      or_imp, forall_and, and_assoc, ih0, ih1, ih2, ih3, ih4, ih5, ih6, ih7]

theorem nodeAll_mono {P Q : OctreeNode T → Prop} (h : ∀ m, P m → Q m) :
    ∀ n, nodeAll P n → nodeAll Q n := by
  intro n
  induction n with
  | leaf b l d => exact h _
  | branch b l d c0 c1 c2 c3 c4 c5 c6 c7 ih0 ih1 ih2 ih3 ih4 ih5 ih6 ih7 =>
    intro hn
    obtain ⟨hs, h0, h1, h2, h3, h4, h5, h6, h7⟩ := hn
    exact ⟨h _ hs, ih0 h0, ih1 h1, ih2 h2, ih3 h3, ih4 h4, ih5 h5, ih6 h6, ih7 h7⟩

/-- In a `good` subtree every node's level is within the depth bound. -/
theorem good_levels (md : Nat) (n : OctreeNode T) (hg : good md n) :
    nodeAll (fun m => m.level ≤ md) n := by
  induction n with
  | leaf b l d => exact hg.1
  | branch b l d c0 c1 c2 c3 c4 c5 c6 c7 ih0 ih1 ih2 ih3 ih4 ih5 ih6 ih7 =>
    obtain ⟨hl, hd, ⟨e0, f0, g0⟩, ⟨e1, f1, g1⟩, ⟨e2, f2, g2⟩, ⟨e3, f3, g3⟩,
      ⟨e4, f4, g4⟩, ⟨e5, f5, g5⟩, ⟨e6, f6, g6⟩, ⟨e7, f7, g7⟩⟩ := hg
    exact ⟨Nat.le_of_lt hl, ih0 g0, ih1 g1, ih2 g2, ih3 g3,
      ih4 g4, ih5 g5, ih6 g6, ih7 g7⟩

/-- The descent of `find_child_containing` lands on a node of the tree. -/
theorem findCC_mem (n : OctreeNode T) (p : Vec3) : findCC n p ∈ allNodes n := by
  induction n with
  | leaf b l d => simp [findCC, allNodes]
  | branch b l d c0 c1 c2 c3 c4 c5 c6 c7 ih0 ih1 ih2 ih3 ih4 ih5 ih6 ih7 =>
    rcases oct_cases (OctantIndex.from_position p b.center)
        (from_position_le p b.center) with h | h | h | h | h | h | h | h <;>
      · simp only [findCC, h]
        norm_num [allNodes]
        tauto

/-- After `drill`, descending with the same point reaches the stored
payload. -/
theorem findCC_drill (p : Vec3) (v : T) :
    ∀ fuel b l d, (findCC (drill p v fuel b l d) p).data = some v := by
  intro fuel
  induction fuel with
  | zero => intro b l d; simp [drill, findCC, data]
  | succ fuel ih =>
    intro b l d
    rcases oct_cases (OctantIndex.from_position p b.center)
        (from_position_le p b.center) with h | h | h | h | h | h | h | h <;>
      simp [drill, findCC, h, ih]

/-- `find` immediately after `insert` of the same point returns the new
payload (`good` rules out payload-bearing internal nodes that the descent
would skip). -/
theorem findCC_insertNode (md : Nat) (p : Vec3) (v : T) (n : OctreeNode T)
    (hg : good md n) : (findCC (insertNode md p v n) p).data = some v := by
  induction n with
  | leaf b l d =>
    by_cases hlt : l < md
    · simp only [insertNode, if_pos hlt]
      exact findCC_drill ..
    · simp [insertNode, hlt, findCC, data]
  | branch b l d c0 c1 c2 c3 c4 c5 c6 c7 ih0 ih1 ih2 ih3 ih4 ih5 ih6 ih7 =>
    obtain ⟨hl, hd, ⟨e0, f0, g0⟩, ⟨e1, f1, g1⟩, ⟨e2, f2, g2⟩, ⟨e3, f3, g3⟩,
      ⟨e4, f4, g4⟩, ⟨e5, f5, g5⟩, ⟨e6, f6, g6⟩, ⟨e7, f7, g7⟩⟩ := hg
    rcases oct_cases (OctantIndex.from_position p b.center)
        (from_position_le p b.center) with h | h | h | h | h | h | h | h <;>
      · simp [insertNode, hl, h, findCC]
        first
          | exact ih0 g0 | exact ih1 g1 | exact ih2 g2 | exact ih3 g3
          | exact ih4 g4 | exact ih5 g5 | exact ih6 g6 | exact ih7 g7

end OctreeNode

/-- The child octant chosen by point classification still contains the
point (no well-formedness of the box is needed). -/
theorem contains_childBox (b : BoundingBox) (p : Vec3) (h : b.contains p) :
    (childBox b (OctantIndex.from_position p b.center)).contains p := by
  obtain ⟨h1, h2, h3, h4, h5, h6⟩ := h
  unfold OctantIndex.from_position
  by_cases hx : p.x ≥ b.center.x <;>
    by_cases hy : p.y ≥ b.center.y <;>
      by_cases hz : p.z ≥ b.center.z <;>
        simp only [hx, hy, hz, if_true, if_false, ite_true, ite_false,
          from_signs_mmm, from_signs_pmm, from_signs_mpm, from_signs_ppm,
          from_signs_mmp, from_signs_pmp, from_signs_mpp, from_signs_ppp] <;>
        simp only [childBox, BoundingBox.contains, to_signs_0, to_signs_1,
          to_signs_2, to_signs_3, to_signs_4, to_signs_5, to_signs_6,
          to_signs_7] <;>
        norm_num <;>
        refine ⟨?_, ?_, ?_, ?_, ?_, ?_⟩ <;>
        first
          | assumption
          | (exact le_of_not_le (by assumption))

/-- In a `good` tree, the `find` descent from a node containing the point
ends at a node containing the point. -/
theorem findCC_contains (md : Nat) (n : OctreeNode T) (hg : OctreeNode.good md n)
    (p : Vec3) (h : n.bbox.contains p) : ((n.findCC p).bbox).contains p := by
  induction n with
  | leaf b l d => exact h
  | branch b l d c0 c1 c2 c3 c4 c5 c6 c7 ih0 ih1 ih2 ih3 ih4 ih5 ih6 ih7 =>
    obtain ⟨hl, hd, ⟨e0, f0, g0⟩, ⟨e1, f1, g1⟩, ⟨e2, f2, g2⟩, ⟨e3, f3, g3⟩,
      ⟨e4, f4, g4⟩, ⟨e5, f5, g5⟩, ⟨e6, f6, g6⟩, ⟨e7, f7, g7⟩⟩ := hg
    have hcc := contains_childBox b p h
    rcases oct_cases (OctantIndex.from_position p b.center)
        (from_position_le p b.center) with h8 | h8 | h8 | h8 | h8 | h8 | h8 | h8 <;>
      · rw [h8] at hcc
        simp only [OctreeNode.findCC, h8]
        norm_num
        first
          | exact ih0 g0 (by rw [f0]; exact hcc)
          | exact ih1 g1 (by rw [f1]; exact hcc)
          | exact ih2 g2 (by rw [f2]; exact hcc)
          | exact ih3 g3 (by rw [f3]; exact hcc)
          | exact ih4 g4 (by rw [f4]; exact hcc)
          | exact ih5 g5 (by rw [f5]; exact hcc)
          | exact ih6 g6 (by rw [f6]; exact hcc)
          | exact ih7 g7 (by rw [f7]; exact hcc)

/-!
The bounding-box query against its brute-force oracle.
-/

namespace OctreeNode

/-- One step of the spec's brute-force oracle: a payload-bearing node
passes the filter exactly when its box intersects the query box. -/
def bruteF (q : BoundingBox) (n : OctreeNode T) : Option T :=
  match n.data with
  | some v => if n.bbox.intersects q then some v else none
  | none => none

/-- For each axis the center of a well-formed box lies between the
bounds. -/
theorem center_between (b : BoundingBox) (hwf : b.wf) :
    (b.min.x ≤ b.center.x ∧ b.center.x ≤ b.max.x) ∧
    (b.min.y ≤ b.center.y ∧ b.center.y ≤ b.max.y) ∧
    (b.min.z ≤ b.center.z ∧ b.center.z ≤ b.max.z) := by
  obtain ⟨w1, w2, w3⟩ := hwf
  simp only [BoundingBox.center, Vec3.add, Vec3.smul]
  refine ⟨⟨by linarith, by linarith⟩, ⟨by linarith, by linarith⟩,
    ⟨by linarith, by linarith⟩⟩

theorem childBox_within (b : BoundingBox) (hwf : b.wf) (i : OctantIndex) :
    (childBox b i).within b := by
  obtain ⟨⟨a1, a2⟩, ⟨a3, a4⟩, ⟨a5, a6⟩⟩ := center_between b hwf
  unfold childBox BoundingBox.within
  dsimp only
  split_ifs <;> refine ⟨?_, ?_, ?_, ?_, ?_, ?_⟩ <;> linarith

theorem childBox_wf (b : BoundingBox) (hwf : b.wf) (i : OctantIndex) :
    (childBox b i).wf := by
  obtain ⟨⟨a1, a2⟩, ⟨a3, a4⟩, ⟨a5, a6⟩⟩ := center_between b hwf
  obtain ⟨w1, w2, w3⟩ := hwf
  unfold childBox BoundingBox.wf
  dsimp only
  split_ifs <;> refine ⟨?_, ?_, ?_⟩ <;> linarith

/-- In a `good` tree with a well-formed root box, every node's box is
well-formed and sits within the root box. -/
theorem good_within (md : Nat) (n : OctreeNode T) (hg : good md n)
    (hwf : n.bbox.wf) :
    nodeAll (fun m => m.bbox.within n.bbox ∧ m.bbox.wf) n := by
  induction n with
  | leaf b l d => exact ⟨BoundingBox.within_refl b, hwf⟩
  | branch b l d c0 c1 c2 c3 c4 c5 c6 c7 ih0 ih1 ih2 ih3 ih4 ih5 ih6 ih7 =>
    obtain ⟨hl, hd, ⟨e0, f0, g0⟩, ⟨e1, f1, g1⟩, ⟨e2, f2, g2⟩, ⟨e3, f3, g3⟩,
      ⟨e4, f4, g4⟩, ⟨e5, f5, g5⟩, ⟨e6, f6, g6⟩, ⟨e7, f7, g7⟩⟩ := hg
    have hwfb : b.wf := hwf
    have step : ∀ (c : OctreeNode T) (k : OctantIndex),
        c.bbox = childBox b k →
        (c.bbox.wf → nodeAll (fun m => m.bbox.within c.bbox ∧ m.bbox.wf) c) →
        nodeAll (fun m => m.bbox.within b ∧ m.bbox.wf) c := by
      intro c k fk ihk
      have hcwf : c.bbox.wf := by rw [fk]; exact childBox_wf b hwfb k
      have hcin : c.bbox.within b := by rw [fk]; exact childBox_within b hwfb k
      exact nodeAll_mono
        (fun m hm => ⟨BoundingBox.within_trans hm.1 hcin, hm.2⟩) c (ihk hcwf)
    exact ⟨⟨BoundingBox.within_refl _, hwf⟩,
      step c0 0 f0 (ih0 g0), step c1 1 f1 (ih1 g1), step c2 2 f2 (ih2 g2),
      step c3 3 f3 (ih3 g3), step c4 4 f4 (ih4 g4), step c5 5 f5 (ih5 g5),
      step c6 6 f6 (ih6 g6), step c7 7 f7 (ih7 g7)⟩

theorem bruteF_none_of_disjoint (q : BoundingBox) (m : OctreeNode T)
    (h : ¬ m.bbox.intersects q) : bruteF q m = none := by
  unfold bruteF
  cases m.data <;> simp [h]

/-- The pruned recursive query equals the brute-force filter over all
nodes, on `good` subtrees with a well-formed box. -/
theorem queryBBox_eq_brute (md : Nat) (q : BoundingBox) (n : OctreeNode T)
    (hg : good md n) (hwf : n.bbox.wf) :
    queryBBoxNode q n = (allNodes n).filterMap (bruteF q) := by
  induction n with
  | leaf b l d =>
    simp only [queryBBoxNode, allNodes, List.filterMap_cons, List.filterMap_nil,
      bruteF, data, bbox]
    cases d <;> split_ifs <;> simp
  | branch b l d c0 c1 c2 c3 c4 c5 c6 c7 ih0 ih1 ih2 ih3 ih4 ih5 ih6 ih7 =>
    obtain ⟨hl, hd, ⟨e0, f0, g0⟩, ⟨e1, f1, g1⟩, ⟨e2, f2, g2⟩, ⟨e3, f3, g3⟩,
      ⟨e4, f4, g4⟩, ⟨e5, f5, g5⟩, ⟨e6, f6, g6⟩, ⟨e7, f7, g7⟩⟩ := hg
    have hwfb : b.wf := hwf
    by_cases hint : b.intersects q
    · have wfk : ∀ k : OctantIndex, (childBox b k).wf :=
        fun k => childBox_wf b hwfb k
      simp only [queryBBoxNode, if_pos hint, allNodes, List.filterMap_cons,
        List.filterMap_append]
      have hdn : bruteF q (branch b l d c0 c1 c2 c3 c4 c5 c6 c7) = none := by
        unfold bruteF; rw [show (branch b l d c0 c1 c2 c3 c4 c5 c6 c7).data = d
          from rfl, hd]
      rw [hdn]
      rw [ih0 g0 (by rw [f0]; exact wfk 0), ih1 g1 (by rw [f1]; exact wfk 1),
        ih2 g2 (by rw [f2]; exact wfk 2), ih3 g3 (by rw [f3]; exact wfk 3),
        ih4 g4 (by rw [f4]; exact wfk 4), ih5 g5 (by rw [f5]; exact wfk 5),
        ih6 g6 (by rw [f6]; exact wfk 6), ih7 g7 (by rw [f7]; exact wfk 7)]
    · have hall := good_within md (branch b l d c0 c1 c2 c3 c4 c5 c6 c7)
        ⟨hl, hd, ⟨e0, f0, g0⟩, ⟨e1, f1, g1⟩, ⟨e2, f2, g2⟩, ⟨e3, f3, g3⟩,
         ⟨e4, f4, g4⟩, ⟨e5, f5, g5⟩, ⟨e6, f6, g6⟩, ⟨e7, f7, g7⟩⟩ hwf
      have hnone : ∀ m ∈ allNodes (branch b l d c0 c1 c2 c3 c4 c5 c6 c7),
          bruteF q m = none := by
        intro m hm
        have hmw := (nodeAll_iff _ _).mp hall m hm
        refine bruteF_none_of_disjoint q m (fun hI => hint ?_)
        exact BoundingBox.intersects_of_within hmw.1 hI
      rw [List.filterMap_eq_nil_iff.mpr hnone]
      simp [queryBBoxNode, hint]

/-- No payload anywhere in the subtree. -/
def noData (n : OctreeNode T) : Prop := nodeAll (fun m => m.data = none) n

theorem expand_noData : ∀ (fuel : Nat) (b : BoundingBox) (l : Nat),
    noData (expand (T := T) fuel b l) := by
  intro fuel
  induction fuel with
  | zero => intro b l; exact rfl
  | succ fuel ih =>
    intro b l
    exact ⟨rfl, ih .., ih .., ih .., ih .., ih .., ih .., ih .., ih ..⟩

theorem subdivideRec_noData (target : Nat) (n : OctreeNode T) (h : noData n) :
    noData (subdivideRec target n) := by
  induction n with
  | leaf b l d =>
    unfold subdivideRec
    split
    · exact h
    · exact ⟨h, expand_noData .., expand_noData .., expand_noData ..,
        expand_noData .., expand_noData .., expand_noData .., expand_noData ..,
        expand_noData ..⟩
  | branch b l d c0 c1 c2 c3 c4 c5 c6 c7 ih0 ih1 ih2 ih3 ih4 ih5 ih6 ih7 =>
    obtain ⟨hs, h0, h1, h2, h3, h4, h5, h6, h7⟩ := h
    unfold subdivideRec
    split
    · exact ⟨hs, h0, h1, h2, h3, h4, h5, h6, h7⟩
    · exact ⟨hs, ih0 h0, ih1 h1, ih2 h2, ih3 h3, ih4 h4, ih5 h5, ih6 h6, ih7 h7⟩

theorem queryBBox_nil_of_noData (q : BoundingBox) (n : OctreeNode T)
    (h : noData n) : queryBBoxNode q n = [] := by
  induction n with
  | leaf b l d =>
    have hd : d = none := h
    simp [queryBBoxNode, hd]
  | branch b l d c0 c1 c2 c3 c4 c5 c6 c7 ih0 ih1 ih2 ih3 ih4 ih5 ih6 ih7 =>
    obtain ⟨hs, h0, h1, h2, h3, h4, h5, h6, h7⟩ := h
    simp [queryBBoxNode, ih0 h0, ih1 h1, ih2 h2, ih3 h3, ih4 h4, ih5 h5,
      ih6 h6, ih7 h7]

theorem brute_nil_of_noData (q : BoundingBox) (n : OctreeNode T)
    (h : noData n) : (allNodes n).filterMap (bruteF q) = [] := by
  refine List.filterMap_eq_nil_iff.mpr (fun m hm => ?_)
  have hd := (nodeAll_iff _ _).mp h m hm
  unfold bruteF
  rw [hd]

end OctreeNode

/-- A malformed box (`min > max` on some axis) contains no point at all, so
no insertion through the interface ever stores a payload. -/
theorem contains_false_of_not_wf (b : BoundingBox) (hb : ¬ b.wf) (p : Vec3) :
    ¬ b.contains p := by
  intro hc
  obtain ⟨h1, h2, h3, h4, h5, h6⟩ := hc
  unfold BoundingBox.wf at hb
  push_neg at hb
  rcases lt_or_le b.max.x b.min.x with hx | hx
  · linarith
  rcases lt_or_le b.max.y b.min.y with hy | hy
  · linarith
  rcases lt_or_le b.max.z b.min.z with hz | hz
  · linarith
  exact absurd (hb hx hy) (not_lt.mpr hz)

/-- Built on a malformed box, the tree never acquires any payload. -/
theorem build_noData {T : Type} (b : BoundingBox) (md : Nat) (hb : ¬ b.wf)
    (ops : List (Op T)) : OctreeNode.noData (build b md ops).root := by
  have base : (Octree.new (T := T) b md).root.bbox = b ∧
      OctreeNode.noData (Octree.new (T := T) b md).root := ⟨rfl, rfl⟩
  unfold build
  generalize Octree.new (T := T) b md = t0 at base
  suffices h : ∀ (t : Octree T), t.root.bbox = b ∧ OctreeNode.noData t.root →
      (ops.foldl applyOp t).root.bbox = b ∧
        OctreeNode.noData (ops.foldl applyOp t).root from (h t0 base).2
  induction ops with
  | nil => exact fun t ht => ht
  | cons op ops ih =>
    intro t ht
    refine ih _ ?_
    obtain ⟨htb, htn⟩ := ht
    cases op with
    | insertOp p v =>
      have : ¬ t.root.bbox.contains p := by
        rw [htb]; exact contains_false_of_not_wf b hb p
      simp only [applyOp, Octree.insert, if_neg this]
      exact ⟨htb, htn⟩
    | subdivideOp dep =>
      refine ⟨?_, ?_⟩
      · show (OctreeNode.subdivideRec (Nat.min dep t.max_depth) t.root).bbox = b
        rw [OctreeNode.subdivideRec_bbox]; exact htb
      · exact OctreeNode.subdivideRec_noData _ _ htn
    | clearOp => exact ⟨htb, rfl⟩

/-!
The radius query against its unpruned filter form.
-/

namespace OctreeNode

/-- The per-node filter of `query_radius`: emit a payload-bearing node
whose bbox centroid lies within the squared radius. -/
def radF (cen : Vec3) (rsq : ℚ) (n : OctreeNode T) : Option T :=
  match n.data with
  | some v => if Vec3.distSq n.bbox.center cen ≤ rsq then some v else none
  | none => none

/-- `query_radius`'s traversal is exactly the brute-force filter over all
nodes, for any tree whatsoever. -/
theorem radiusCollect_eq (cen : Vec3) (rsq : ℚ) (n : OctreeNode T) :
    radiusCollect cen rsq n = (allNodes n).filterMap (radF cen rsq) := by
  induction n with
  | leaf b l d =>
    cases d with
    | none => simp [radiusCollect, allNodes, radHit, radF, data]
    | some w =>
      by_cases hd : Vec3.distSq b.center cen ≤ rsq <;>
        simp [radiusCollect, allNodes, radHit, radF, data, bbox, hd]
  | branch b l d c0 c1 c2 c3 c4 c5 c6 c7 ih0 ih1 ih2 ih3 ih4 ih5 ih6 ih7 =>
    cases d with
    | none =>
      simp [radiusCollect, allNodes, radHit, radF, data, bbox,
        List.filterMap_cons, List.filterMap_append, ih0, ih1, ih2, ih3,
        ih4, ih5, ih6, ih7, List.append_assoc]
    | some w =>
      by_cases hd : Vec3.distSq b.center cen ≤ rsq <;>
        simp [radiusCollect, allNodes, radHit, radF, data, bbox, hd,
          List.filterMap_cons, List.filterMap_append, ih0, ih1, ih2, ih3,
          ih4, ih5, ih6, ih7, List.append_assoc]

end OctreeNode

/-!
Descent paths: the sequence of octants a point selects from a box down to
the depth bound. Two points "reach the same max-depth leaf" exactly when
their paths agree.
-/

/-- The octant choices a point makes descending `levels` levels from box
`b`, as both `find_or_create_leaf` and `find_child_containing` compute
them. -/
def octPath : BoundingBox → Nat → Vec3 → List OctantIndex
  | _, 0, _ => []
  | b, k + 1, p =>
    OctantIndex.from_position p b.center ::
      octPath (childBox b (OctantIndex.from_position p b.center)) k p

namespace OctreeNode

/-- Descending with `p1` through a subtree drilled for `p2` reaches the
stored payload whenever the two points' octant paths agree. -/
theorem findCC_drill_path (p1 p2 : Vec3) (v : T) :
    ∀ fuel b l d, octPath b fuel p1 = octPath b fuel p2 →
      (findCC (drill p2 v fuel b l d) p1).data = some v := by
  intro fuel
  induction fuel with
  | zero => intro b l d _; simp [drill, findCC, data]
  | succ fuel ih =>
    intro b l d hpath
    simp only [octPath] at hpath
    injection hpath with hhead htail
    rcases oct_cases (OctantIndex.from_position p2 b.center)
        (from_position_le p2 b.center) with h | h | h | h | h | h | h | h <;>
      · have h1 : OctantIndex.from_position p1 b.center = _ := hhead.trans h
        rw [h, h1] at htail
        simp [drill, findCC, h, h1, ih _ _ _ htail]

/-- `find` with `p1` after inserting `p2` returns `p2`'s payload whenever
the two points' octant paths to the depth bound agree. -/
theorem findCC_insertNode_path (md : Nat) (p1 p2 : Vec3) (v : T)
    (n : OctreeNode T) (hg : good md n)
    (hpath : octPath n.bbox (md - n.level) p1 = octPath n.bbox (md - n.level) p2) :
    (findCC (insertNode md p2 v n) p1).data = some v := by
  induction n with
  | leaf b l d =>
    by_cases hlt : l < md
    · simp only [insertNode, if_pos hlt]
      exact findCC_drill_path p1 p2 v (md - l) b l d hpath
    · simp [insertNode, hlt, findCC, data]
  | branch b l d c0 c1 c2 c3 c4 c5 c6 c7 ih0 ih1 ih2 ih3 ih4 ih5 ih6 ih7 =>
    obtain ⟨hl, hd, ⟨e0, f0, g0⟩, ⟨e1, f1, g1⟩, ⟨e2, f2, g2⟩, ⟨e3, f3, g3⟩,
      ⟨e4, f4, g4⟩, ⟨e5, f5, g5⟩, ⟨e6, f6, g6⟩, ⟨e7, f7, g7⟩⟩ := hg
    simp only [bbox, level] at hpath
    rw [show md - l = (md - (l + 1)) + 1 from by omega] at hpath
    simp only [octPath] at hpath
    injection hpath with hhead htail
    rcases oct_cases (OctantIndex.from_position p2 b.center)
        (from_position_le p2 b.center) with h | h | h | h | h | h | h | h <;>
      · have h1 : OctantIndex.from_position p1 b.center = _ := hhead.trans h
        rw [h, h1] at htail
        simp [insertNode, hl, h, findCC, h1]
        first
          | exact ih0 g0 (by rw [f0, e0]; exact htail)
          | exact ih1 g1 (by rw [f1, e1]; exact htail)
          | exact ih2 g2 (by rw [f2, e2]; exact htail)
          | exact ih3 g3 (by rw [f3, e3]; exact htail)
          | exact ih4 g4 (by rw [f4, e4]; exact htail)
          | exact ih5 g5 (by rw [f5, e5]; exact htail)
          | exact ih6 g6 (by rw [f6, e6]; exact htail)
          | exact ih7 g7 (by rw [f7, e7]; exact htail)

end OctreeNode

/-!
Capacity utilities and octant-metric helpers.
-/

/-- Below the 64-bit wraparound threshold the loop computes the exact
power of 8. -/
theorem mulPow8_eval : ∀ n, n < 22 → mulPow8 n = 8 ^ n := by decide

theorem theoretical_node_count_eval :
    ∀ d, d < 21 → theoretical_node_count d = (8 ^ (d + 1) - 1) / 7 := by decide

theorem leaf_count_at_depth_eval :
    ∀ d, d < 22 → leaf_count_at_depth d = 8 ^ d := by decide

theorem hamming_mem : ∀ a b : Fin 8,
    OctantIndex.hamming_distance a.val b.val ∈ ({0, 1, 2, 3} : Finset ℕ) := by
  decide

theorem hamming_agree : ∀ a b : Fin 8,
    oct8_hamming_distance a.val b.val =
      OctantIndex.hamming_distance a.val b.val := by
  decide

/-- Brute-force oracle for the bounding-box query, following the spec's
words: linearly scan all payload-bearing nodes and keep those passing the
same bbox-intersection predicate. -/
def bruteForceQueryBBox {T : Type} (t : Octree T) (q : BoundingBox) : List T :=
  (OctreeNode.allNodes t.root).filterMap (OctreeNode.bruteF q)

/-- Unit test box `[(0,0,0),(1,1,1)]` used by the concrete witnesses. -/
def B0 : BoundingBox := ⟨⟨0, 0, 0⟩, ⟨1, 1, 1⟩⟩

/-!
The claims.
-/

/-- C1 (counterexample): the claim "if P ∉ B then insertion is a no-op and
find(P) returns not-found" fails: on the box `[0,1]³` with depth bound 1,
after inserting payload 42 at (9/10,9/10,9/10) and then (a no-op) at the
out-of-bounds point (2,2,2), `find((2,2,2))` descends to the boundary leaf
holding 42 and returns it instead of `nullopt`. -/
theorem find_out_of_bounds_counterexample :
    ¬ B0.contains ⟨2, 2, 2⟩ ∧
    Octree.find (((Octree.new (T := ℕ) B0 1).insert ⟨9/10, 9/10, 9/10⟩ 42).insert
      ⟨2, 2, 2⟩ 7) ⟨2, 2, 2⟩ = some 42 := by
  constructor
  · norm_num [B0, BoundingBox.contains]
  · norm_num [B0, Octree.find, Octree.insert, Octree.new, OctreeNode.insertNode,
      OctreeNode.drill, OctreeNode.findCC, OctreeNode.bbox, OctreeNode.data,
      OctantIndex.from_position, childBox, BoundingBox.center,
      BoundingBox.contains, Vec3.add, Vec3.smul]

/-- C1 (amended): for every tree built through the container interface with
root box `B`: if `P ∈ B` then `insert(P,v)` immediately followed by
`find(P)` returns `v` (the payload last inserted at `P`); if `P ∉ B` the
insertion is a no-op leaving the tree unchanged — but `find(P)` may still
return the payload of the boundary leaf reached by the descent, rather
than not-found. -/
theorem insert_find_roundtrip_amended {T : Type} (b : BoundingBox) (md : Nat)
    (ops : List (Op T)) (P : Vec3) (v : T) :
    (b.contains P → Octree.find ((build b md ops).insert P v) P = some v) ∧
    (¬ b.contains P → (build b md ops).insert P v = build b md ops) := by
  obtain ⟨hmd, hb, hl, hg⟩ := build_inv b md ops
  constructor
  · intro hc
    have hc2 : (build b md ops).root.bbox.contains P := by rw [hb]; exact hc
    simp only [Octree.insert, if_pos hc2, Octree.find]
    rw [hmd]
    exact OctreeNode.findCC_insertNode md P v _ hg
  · intro hc
    have hc2 : ¬ (build b md ops).root.bbox.contains P := by rw [hb]; exact hc
    simp [Octree.insert, hc2]

theorem insert_find_roundtrip_amended_witness :
    Octree.find ((build (T := ℕ) B0 1 []).insert ⟨1/2, 1/2, 1/2⟩ 42)
      ⟨1/2, 1/2, 1/2⟩ = some 42 ∧
    (build (T := ℕ) B0 1 []).insert ⟨2, 2, 2⟩ 9 = build (T := ℕ) B0 1 [] :=
  ⟨(insert_find_roundtrip_amended B0 1 [] ⟨1/2, 1/2, 1/2⟩ 42).1
      (by norm_num [B0, BoundingBox.contains]),
   (insert_find_roundtrip_amended B0 1 [] ⟨2, 2, 2⟩ 9).2
      (by norm_num [B0, BoundingBox.contains])⟩

/-- C2: for every tree built through the container interface and every
query box, `query_bbox` returns exactly the payloads a brute-force scan of
all payload-bearing nodes filtered by the same bbox-intersection predicate
returns (even in the same order): the pruning never drops a qualifying
payload. -/
theorem query_bbox_oracle_equiv {T : Type} (b : BoundingBox) (md : Nat)
    (ops : List (Op T)) (q : BoundingBox) :
    Octree.query_bbox (build b md ops) q = bruteForceQueryBBox (build b md ops) q := by
  obtain ⟨hmd, hb, hl, hg⟩ := build_inv b md ops
  by_cases hwf : b.wf
  · exact OctreeNode.queryBBox_eq_brute md q _ hg (by rw [hb]; exact hwf)
  · have hnd := build_noData b md hwf ops
    exact (OctreeNode.queryBBox_nil_of_noData q _ hnd).trans
      (OctreeNode.brute_nil_of_noData q _ hnd).symm

/-- C3: for every tree constructed with depth bound `max_depth` and every
sequence of interface operations, every node reachable from the root has
level at most the bound (so subdivision never produces a deeper node). -/
theorem depth_bound_invariant {T : Type} (b : BoundingBox) (md : Nat)
    (ops : List (Op T)) :
    ∀ n ∈ OctreeNode.allNodes (build b md ops).root,
      n.level ≤ (build b md ops).max_depth := by
  obtain ⟨hmd, hb, hl, hg⟩ := build_inv b md ops
  intro n hn
  rw [hmd]
  exact (OctreeNode.nodeAll_iff _ _).mp (OctreeNode.good_levels md _ hg) n hn

theorem depth_bound_invariant_witness :
    (OctreeNode.leaf (T := ℕ) B0 0 none) ∈
      OctreeNode.allNodes (build (T := ℕ) B0 2 []).root ∧
    (OctreeNode.leaf (T := ℕ) B0 0 none).level ≤ (build (T := ℕ) B0 2 []).max_depth :=
  ⟨List.mem_singleton.mpr rfl,
   depth_bound_invariant B0 2 [] _ (List.mem_singleton.mpr rfl)⟩

/-- C4: inserting a point outside the root bounding box is an atomic
silent no-op on any tree state: the tree value is unchanged, so the
payload count and every query result are unchanged, and nothing is
stored. -/
theorem oob_insert_noop {T : Type} (t : Octree T) (P : Vec3) (v : T)
    (h : ¬ t.root.bbox.contains P) :
    t.insert P v = t ∧
    (t.insert P v).stats.nodes_with_data = t.stats.nodes_with_data ∧
    (∀ q, (t.insert P v).query_bbox q = t.query_bbox q) ∧
    (∀ p2, Octree.find (t.insert P v) p2 = Octree.find t p2) ∧
    (∀ c r, (t.insert P v).query_radius c r = t.query_radius c r) := by
  have he : t.insert P v = t := by simp [Octree.insert, h]
  exact ⟨he, by rw [he], fun q => by rw [he], fun p2 => by rw [he],
    fun c r => by rw [he]⟩

theorem oob_insert_noop_witness :
    (Octree.new (T := ℕ) B0 1).insert ⟨2, 2, 2⟩ 9 = Octree.new (T := ℕ) B0 1 ∧
    ((Octree.new (T := ℕ) B0 1).insert ⟨2, 2, 2⟩ 9).stats.nodes_with_data =
      (Octree.new (T := ℕ) B0 1).stats.nodes_with_data ∧
    (∀ q, ((Octree.new (T := ℕ) B0 1).insert ⟨2, 2, 2⟩ 9).query_bbox q =
      (Octree.new (T := ℕ) B0 1).query_bbox q) ∧
    (∀ p2, Octree.find ((Octree.new (T := ℕ) B0 1).insert ⟨2, 2, 2⟩ 9) p2 =
      Octree.find (Octree.new (T := ℕ) B0 1) p2) ∧
    (∀ c r, ((Octree.new (T := ℕ) B0 1).insert ⟨2, 2, 2⟩ 9).query_radius c r =
      (Octree.new (T := ℕ) B0 1).query_radius c r) :=
  oob_insert_noop (Octree.new (T := ℕ) B0 1) ⟨2, 2, 2⟩ 9
    (by norm_num [Octree.new, OctreeNode.bbox, B0, BoundingBox.contains])

/-- C5: over all 64 ordered octant pairs the Hamming distance lies in
{0,1,2,3}, the two popcount implementations agree, and each file's
`euclidean_distance` is exactly `sqrt(hamming)`, doubled for the ±1 unit
cube option. -/
theorem octant_distance_law :
    ∀ a b : Fin 8,
      OctantIndex.hamming_distance a.val b.val ∈ ({0, 1, 2, 3} : Finset ℕ) ∧
      oct8_hamming_distance a.val b.val = OctantIndex.hamming_distance a.val b.val ∧
      OctantIndex.euclidean_distance a.val b.val =
        Real.sqrt (OctantIndex.hamming_distance a.val b.val) ∧
      oct8_euclidean_distance a.val b.val false =
        Real.sqrt (oct8_hamming_distance a.val b.val) ∧
      oct8_euclidean_distance a.val b.val true =
        2 * Real.sqrt (oct8_hamming_distance a.val b.val) := by
  intro a b
  exact ⟨hamming_mem a b, hamming_agree a b, rfl,
    by simp [oct8_euclidean_distance], by simp [oct8_euclidean_distance]⟩

/-- C6 (counterexample): the claim "for every tree and every point, find
terminates at a node that contains the point" fails for out-of-bounds
points: on a fresh tree over `[0,1]³` the descent for (2,2,2) ends at the
root leaf, whose box does not contain the point. -/
theorem find_descent_counterexample :
    ¬ (((Octree.new (T := ℕ) B0 1).root.findCC ⟨2, 2, 2⟩).bbox).contains ⟨2, 2, 2⟩ := by
  norm_num [Octree.new, OctreeNode.findCC, OctreeNode.bbox, B0,
    BoundingBox.contains]

/-- C6 (amended): for every tree built through the container interface and
every point `P` inside the root bounding box, `find(P)` is the pure
octant-classification descent `find_child_containing`; it terminates at a
node whose bounding box contains `P` and returns that node's payload (its
`data`, present or not). -/
theorem find_descent_amended {T : Type} (b : BoundingBox) (md : Nat)
    (ops : List (Op T)) (P : Vec3) (h : b.contains P) :
    (((build b md ops).root.findCC P).bbox).contains P ∧
    Octree.find (build b md ops) P = ((build b md ops).root.findCC P).data := by
  obtain ⟨hmd, hb, hl, hg⟩ := build_inv b md ops
  refine ⟨?_, rfl⟩
  exact findCC_contains md _ hg P (by rw [hb]; exact h)

theorem find_descent_amended_witness :
    ((((build (T := ℕ) B0 1 []).root.findCC ⟨1/2, 1/2, 1/2⟩).bbox).contains
      ⟨1/2, 1/2, 1/2⟩) ∧
    Octree.find (build (T := ℕ) B0 1 []) ⟨1/2, 1/2, 1/2⟩ =
      ((build (T := ℕ) B0 1 []).root.findCC ⟨1/2, 1/2, 1/2⟩).data :=
  find_descent_amended B0 1 [] ⟨1/2, 1/2, 1/2⟩
    (by norm_num [B0, BoundingBox.contains])

/-- C7 (counterexample): the claim quantifies over every radius, but for a
negative radius `query_radius` compares squared distances and so still
returns payloads although no node lies at Euclidean distance ≤ r: on a
depth-0 tree holding 42 at its root centroid, `query_radius(center, -1)`
returns [42] while every node's centroid distance `√0 = 0` exceeds -1. -/
theorem query_radius_counterexample :
    Octree.query_radius ((Octree.new (T := ℕ) B0 0).insert ⟨1/2, 1/2, 1/2⟩ 42)
      ⟨1/2, 1/2, 1/2⟩ (-1) = [42] ∧
    ∀ n ∈ OctreeNode.allNodes
        ((Octree.new (T := ℕ) B0 0).insert ⟨1/2, 1/2, 1/2⟩ 42).root,
      ¬ (Real.sqrt (Vec3.distSq n.bbox.center ⟨1/2, 1/2, 1/2⟩) ≤ ((-1 : ℚ) : ℝ)) := by
  have ht : (Octree.new (T := ℕ) B0 0).insert ⟨1/2, 1/2, 1/2⟩ 42 =
      ⟨.leaf B0 0 (some 42), 0⟩ := by
    norm_num [Octree.insert, Octree.new, OctreeNode.insertNode, B0,
      OctreeNode.bbox, BoundingBox.contains]
  rw [ht]
  constructor
  · norm_num [Octree.query_radius, OctreeNode.radiusCollect, OctreeNode.radHit,
      Vec3.distSq, Vec3.dot, Vec3.sub, BoundingBox.center, Vec3.add, Vec3.smul,
      B0, OctreeNode.bbox, OctreeNode.data]
  · intro n hn
    simp only [OctreeNode.allNodes, List.mem_singleton] at hn
    subst hn
    have hd : Vec3.distSq (BoundingBox.center B0) ⟨1/2, 1/2, 1/2⟩ = 0 := by
      norm_num [Vec3.distSq, Vec3.dot, Vec3.sub, BoundingBox.center, Vec3.add,
        Vec3.smul, B0]
    simp only [OctreeNode.bbox, hd]
    push_cast
    rw [Real.sqrt_zero]
    norm_num

/-- C7 (amended): for every tree, center and nonnegative radius,
`query_radius` is the unpruned full traversal returning exactly the
payloads of payload-bearing nodes whose bbox centroid lies within the
radius; the squared-distance filter it evaluates coincides with
"Euclidean distance ≤ r" at every node. -/
theorem query_radius_amended {T : Type} (t : Octree T) (c : Vec3) (r : ℚ)
    (hr : 0 ≤ r) :
    t.query_radius c r =
      (OctreeNode.allNodes t.root).filterMap (OctreeNode.radF c (r * r)) ∧
    ∀ n ∈ OctreeNode.allNodes t.root,
      (Vec3.distSq n.bbox.center c ≤ r * r ↔
        Real.sqrt (Vec3.distSq n.bbox.center c) ≤ (r : ℝ)) := by
  constructor
  · exact OctreeNode.radiusCollect_eq c (r * r) t.root
  · intro n _
    have hd : (0 : ℚ) ≤ Vec3.distSq n.bbox.center c := Vec3.distSq_nonneg _ _
    have hdR : (0 : ℝ) ≤ ((Vec3.distSq n.bbox.center c : ℚ) : ℝ) := by
      exact_mod_cast hd
    constructor
    · intro h
      have h1 : Real.sqrt ((Vec3.distSq n.bbox.center c : ℚ) : ℝ) ≤
          Real.sqrt (((r : ℝ)) * ((r : ℝ))) := by
        apply Real.sqrt_le_sqrt
        exact_mod_cast h
      rwa [Real.sqrt_mul_self (by exact_mod_cast hr)] at h1
    · intro h
      have h1 : Real.sqrt ((Vec3.distSq n.bbox.center c : ℚ) : ℝ) *
          Real.sqrt ((Vec3.distSq n.bbox.center c : ℚ) : ℝ) ≤ (r : ℝ) * (r : ℝ) :=
        mul_self_le_mul_self (Real.sqrt_nonneg _) h
      rw [Real.mul_self_sqrt hdR] at h1
      exact_mod_cast h1

theorem query_radius_amended_witness :
    ((Octree.new (T := ℕ) B0 0).query_radius ⟨0, 0, 0⟩ 2 =
      (OctreeNode.allNodes (Octree.new (T := ℕ) B0 0).root).filterMap
        (OctreeNode.radF ⟨0, 0, 0⟩ (2 * 2))) ∧
    ∀ n ∈ OctreeNode.allNodes (Octree.new (T := ℕ) B0 0).root,
      (Vec3.distSq n.bbox.center ⟨0, 0, 0⟩ ≤ 2 * 2 ↔
        Real.sqrt (Vec3.distSq n.bbox.center ⟨0, 0, 0⟩) ≤ ((2 : ℚ) : ℝ)) :=
  query_radius_amended (Octree.new (T := ℕ) B0 0) ⟨0, 0, 0⟩ 2 (by norm_num)

/-- C8: for every phase index outside [0,11], `TemporalOctree::insert` is a
no-op leaving all twelve phase trees unchanged, `find` returns `nullopt`
and `query_bbox` returns an empty result; none of them fails. -/
theorem invalid_phase_noop {T : Type} (t : TemporalOctree T) (phase : Nat)
    (p : Vec3) (v : T) (q : BoundingBox) (h : 12 ≤ phase) :
    t.insert phase p v = t ∧ t.find phase p = none ∧ t.query_bbox phase q = [] := by
  have hlt : ¬ phase < 12 := by omega
  refine ⟨?_, ?_, ?_⟩ <;>
    simp [TemporalOctree.insert, TemporalOctree.find, TemporalOctree.query_bbox,
      hlt]

theorem invalid_phase_noop_witness :
    (TemporalOctree.new (T := ℕ) B0 1).insert 12 ⟨0, 0, 0⟩ 5 =
      TemporalOctree.new (T := ℕ) B0 1 ∧
    (TemporalOctree.new (T := ℕ) B0 1).find 12 ⟨0, 0, 0⟩ = none ∧
    (TemporalOctree.new (T := ℕ) B0 1).query_bbox 12 B0 = [] :=
  invalid_phase_noop (TemporalOctree.new B0 1) 12 ⟨0, 0, 0⟩ 5 B0 (by omega)

/-- C9 (counterexample): the claim asserts the closed forms for every
depth, but the `size_t` computation wraps: at depth 21 the loop computes
`8^22 mod 2^64 = 0`, so `theoretical_node_count(21)` is `(2^64-1)/7`, not
`(8^22-1)/7`. -/
theorem node_count_overflow_counterexample :
    theoretical_node_count 21 = 2635249153387078802 ∧
    (8 ^ (21 + 1) - 1) / 7 = 10540996613548315209 ∧
    theoretical_node_count 21 ≠ (8 ^ (21 + 1) - 1) / 7 := by
  exact ⟨by decide, by decide, by decide⟩

/-- C9 (amended): below the 64-bit wraparound threshold the utilities
compute the exact closed forms: `theoretical_node_count d = (8^(d+1)-1)/7`
for `d ≤ 20` and `leaf_count_at_depth d = 8^d` for `d ≤ 21` (in
particular 1 node at depth 0; 9 nodes, 8 leaves at depth 1; 73 nodes, 64
leaves at depth 2). -/
theorem capacity_closed_form_amended (d : Nat) :
    (d ≤ 20 → theoretical_node_count d = (8 ^ (d + 1) - 1) / 7) ∧
    (d ≤ 21 → leaf_count_at_depth d = 8 ^ d) := by
  constructor
  · intro h; exact theoretical_node_count_eval d (by omega)
  · intro h; exact leaf_count_at_depth_eval d (by omega)

theorem capacity_closed_form_amended_witness :
    theoretical_node_count 2 = (8 ^ (2 + 1) - 1) / 7 ∧
    leaf_count_at_depth 2 = 8 ^ 2 :=
  ⟨(capacity_closed_form_amended 2).1 (by omega),
   (capacity_closed_form_amended 2).2 (by omega)⟩

/-- C10: payloads are stored per max-depth leaf cell, not per point: if two
distinct in-bounds points select the same octant path down to the depth
bound, the second insertion overwrites the shared leaf's single payload
slot, and a subsequent `find` at the first point returns the second
payload. -/
theorem leaf_cell_overwrite {T : Type} (b : BoundingBox) (md : Nat)
    (ops : List (Op T)) (P1 P2 : Vec3) (v1 v2 : T) (_hne : P1 ≠ P2)
    (_h1 : b.contains P1) (h2 : b.contains P2)
    (hpath : octPath b md P1 = octPath b md P2) :
    Octree.find (((build b md ops).insert P1 v1).insert P2 v2) P1 = some v2 := by
  set u := (build b md ops).insert P1 v1 with hu
  have hinv1 : u.inv b md :=
    applyOp_inv b md (build b md ops) (.insertOp P1 v1) (build_inv b md ops)
  obtain ⟨hmd1, hb1, hl1, hg1⟩ := hinv1
  have hc2 : u.root.bbox.contains P2 := by rw [hb1]; exact h2
  show Octree.find (u.insert P2 v2) P1 = some v2
  simp only [Octree.insert, if_pos hc2, Octree.find]
  rw [hmd1]
  apply OctreeNode.findCC_insertNode_path md P1 P2 v2 _ hg1
  rw [hb1, hl1]
  simpa using hpath

theorem leaf_cell_overwrite_witness :
    Octree.find (((build (T := ℕ) B0 1 []).insert ⟨3/5, 3/5, 3/5⟩ 1).insert
      ⟨7/10, 7/10, 7/10⟩ 2) ⟨3/5, 3/5, 3/5⟩ = some 2 :=
  leaf_cell_overwrite B0 1 [] ⟨3/5, 3/5, 3/5⟩ ⟨7/10, 7/10, 7/10⟩ 1 2
    (by norm_num [Vec3.mk.injEq])
    (by norm_num [B0, BoundingBox.contains])
    (by norm_num [B0, BoundingBox.contains])
    (by norm_num [octPath, OctantIndex.from_position, childBox,
      BoundingBox.center, Vec3.add, Vec3.smul, B0])

end ODS
